import Mathlib

set_option maxHeartbeats 1000000
set_option maxRecDepth 4096

/-!
Shallow embedding of the rmm physical-memory-management core:
the bump frame allocator over memory-area lists
(src/allocator/frame/bump.rs) and the AArch64 architecture constants
and invalidation instruction sequence (src/arch/aarch64.rs).
Machine integers (Rust usize) are modelled as `Nat`; the subtraction
sites where usize underflow could occur are the subject of claim C10.
-/

/-- One contiguous span of usable physical memory, as reported by the
bootloader: a base physical address and a size in bytes
(`MemoryArea` in the source; `PhysicalAddress` is unwrapped to `Nat`). -/
structure MemoryArea where
  base : Nat
  size : Nat
  deriving DecidableEq

/-- Sum of the sizes of a list of memory areas
(`areas.iter().map(|a| a.size).sum()` in the source). -/
def sumSizes (areas : List MemoryArea) : Nat :=
  (areas.map MemoryArea.size).sum

/-- The normalization loop of `BumpAllocator::new`: while the first area is
no larger than the remaining offset, subtract its size from the offset and
drop it (`while let Some(first) = areas.first() && first.size <= offset`). -/
def skipAreas : List MemoryArea → Nat → List MemoryArea × Nat
  | [], off => ([], off)
  | a :: rest, off =>
    if a.size ≤ off then skipAreas rest (off - a.size) else (a :: rest, off)

/-- State of `BumpAllocator`: the original (region list, skip offset) pair as
normalized at construction, and the current (region list, in-region offset)
pair advanced by `allocate`. -/
structure BumpAllocator where
  origAreas : List MemoryArea × Nat
  curAreas : List MemoryArea × Nat
  deriving DecidableEq

/-- `BumpAllocator::new`: normalize the (areas, offset) pair with the skip
loop and store it as both the original and the current cursor. -/
def BumpAllocator.new (areas : List MemoryArea) (off : Nat) : BumpAllocator :=
  ⟨skipAreas areas off, skipAreas areas off⟩

/-- The allocation loop of `BumpAllocator::allocate`: if the current area's
remaining capacity `area.size - off` is less than the requested size, drop
the area and retry with offset 0; if the list is exhausted return `none`
(leaving the mutated cursor behind, exactly as the Rust loop does); else
advance the offset and return the pre-advance address `area.base + off`. -/
def allocLoop (reqSize : Nat) : List MemoryArea → Nat → Option Nat × (List MemoryArea × Nat)
  | [], off => (none, ([], off))
  | a :: rest, off =>
    if a.size - off < reqSize then allocLoop reqSize rest 0
    else (some (a.base + off), (a :: rest, off + reqSize))

/-- `BumpAllocator::allocate` (control flow and cursor state): request
`count * pageSize` bytes from the current cursor; returns the optional
address together with the updated allocator. -/
def BumpAllocator.allocate (pageSize : Nat) (s : BumpAllocator) (count : Nat) :
    Option Nat × BumpAllocator :=
  let r := allocLoop (count * pageSize) s.curAreas.1 s.curAreas.2
  (r.1, { s with curAreas := r.2 })

/-- `FrameUsage`: pair of used and total frame counts. -/
structure FrameUsage where
  used : Nat
  total : Nat
  deriving DecidableEq

/-- `BumpAllocator::usage`: total bytes = sum of original sizes minus the
original offset; free bytes = sum of current sizes minus the current offset;
reported in frames after division by the page size. -/
def BumpAllocator.usage (pageSize : Nat) (s : BumpAllocator) : FrameUsage :=
  let total := sumSizes s.origAreas.1 - s.origAreas.2
  let free := sumSizes s.curAreas.1 - s.curAreas.2
  ⟨(total - free) / pageSize, total / pageSize⟩

/-- Modelled from the spec: `FrameUsage::free` (defined outside src/) is the
total minus the used frame count. -/
def FrameUsage.free (u : FrameUsage) : Nat := u.total - u.used

/-- `BumpAllocator::offset`: `(usage().total - usage().free) * PAGE_SIZE`. -/
def BumpAllocator.offset (pageSize : Nat) (s : BumpAllocator) : Nat :=
  ((s.usage pageSize).total - (s.usage pageSize).free) * pageSize

/-- Outcome of `BumpAllocator::free`: the source is the single statement
`unimplemented!("BumpAllocator::free not implemented")`, a panic. -/
inductive FreeOutcome
  | notImplementedPanic
  deriving DecidableEq

/-- `BumpAllocator::free`: unconditionally panics with "not implemented";
it never produces a successor allocator state. -/
def BumpAllocator.free (_s : BumpAllocator) (_addr _count : Nat) :
    Except FreeOutcome BumpAllocator :=
  Except.error FreeOutcome.notImplementedPanic

/-- A sequence of `allocate` calls, one per requested count, returning the
list of per-call results and the final allocator state. -/
def allocSeq (pageSize : Nat) : BumpAllocator → List Nat → List (Option Nat) × BumpAllocator
  | s, [] => ([], s)
  | s, c :: cs =>
    let r := s.allocate pageSize c
    let rest := allocSeq pageSize r.2 cs
    (r.1 :: rest.1, rest.2)

/-- The (address, byte-length) spans of the successful calls in a sequence
of `allocate` calls. -/
def allocSpans (pageSize : Nat) : BumpAllocator → List Nat → List (Nat × Nat)
  | _, [] => []
  | s, c :: cs =>
    let r := s.allocate pageSize c
    match r.1 with
    | none => allocSpans pageSize r.2 cs
    | some a => (a, c * pageSize) :: allocSpans pageSize r.2 cs

/-- `PHYS_OFFSET` for AArch64 (src/arch/aarch64.rs). -/
def PHYS_OFFSET : Nat := 0xFFFF800000000000

/-- Modelled from the spec: `Arch::phys_to_virt` (defined outside src/) is
identity plus the fixed per-architecture direct-map offset. -/
def phys_to_virt (p : Nat) : Nat := p + PHYS_OFFSET

/-- Modelled from the spec: `Arch::write_bytes` (defined outside src/) fills
`n` bytes starting at a virtual address with the given byte value; memory is
modelled as a function from virtual addresses to byte values. -/
def write_bytes (mem : Nat → Nat) (addr v n : Nat) : Nat → Nat :=
  fun x => if addr ≤ x ∧ x < addr + n then v else mem x

/-- `BumpAllocator::allocate` including its memory effect: on success the
returned span is zero-filled through the physical-to-virtual mapping
(`A::write_bytes(A::phys_to_virt(block), 0, req_size)` in the source). -/
def BumpAllocator.allocateMem (pageSize : Nat) (s : BumpAllocator) (mem : Nat → Nat)
    (count : Nat) : Option Nat × BumpAllocator × (Nat → Nat) :=
  let r := s.allocate pageSize count
  match r.1 with
  | some a => (some a, r.2, write_bytes mem (phys_to_virt a) 0 (count * pageSize))
  | none => (none, r.2, mem)

/-- Modelled from the spec: construction walks forward through whole regions
strictly smaller than the remaining offset, subtracting each dropped
region's size from the offset (the drop rule claimed by the spec, with a
strict comparison; the skip loop actually in the source is `skipAreas`). -/
def specSkipStrict : List MemoryArea → Nat → List MemoryArea × Nat
  | [], off => ([], off)
  | a :: rest, off =>
    if a.size < off then specSkipStrict rest (off - a.size) else (a :: rest, off)

/-- Ascending, non-overlapping region list: each region ends at or before
the next region's base, and bases strictly increase. -/
def AreasSorted (areas : List MemoryArea) : Prop :=
  List.Chain' (fun a b => a.base + a.size ≤ b.base ∧ a.base < b.base) areas

/-- The weaker ordering fact the allocation proofs use: each region ends at
or before the next region's base. -/
def AreasChain (areas : List MemoryArea) : Prop :=
  List.Chain' (fun a b => a.base + a.size ≤ b.base) areas

/-- Size of the first area of a list, 0 for the empty list. -/
def headSize : List MemoryArea → Nat
  | [] => 0
  | a :: _ => a.size

/-- The absolute position of a region cursor: base of the first area plus
the in-area offset (0 for an empty list); `abs_offset` in the source. -/
def headPos : List MemoryArea × Nat → Nat
  | ([], _) => 0
  | (a :: _, off) => a.base + off

/-- Weak cursor invariant: the list is empty, or the in-area offset is
within the first area. Established by construction, preserved by allocate. -/
def InvW (p : List MemoryArea × Nat) : Prop :=
  match p.1 with
  | [] => True
  | a :: _ => p.2 ≤ a.size

/-- Strong cursor invariant: the offset is within the first area, and zero
when the list is empty. Holds when the initial skip offset does not exceed
the supplied capacity. -/
def InvS (p : List MemoryArea × Nat) : Prop :=
  p.2 ≤ headSize p.1

/-- Free bytes remaining at a region cursor. -/
def freeBytes (p : List MemoryArea × Nat) : Nat :=
  sumSizes p.1 - p.2

/-- AArch64 `dsb` barrier domain arguments appearing in the source. -/
inductive DsbDomain
  | ishst
  | ish
  deriving DecidableEq

/-- AArch64 `tlbi` operation arguments appearing in the source. -/
inductive TlbiOp
  | vmalle1is
  | vaae1is
  deriving DecidableEq

/-- The AArch64 instructions issued by the invalidation routines. -/
inductive A64Instr
  | dsb (d : DsbDomain)
  | tlbi (op : TlbiOp)
  | isb
  deriving DecidableEq

/-- Instruction trace of `AArch64Arch::invalidate_all`, transcribed from its
inline asm block: `dsb ishst; tlbi vmalle1is; dsb ish; isb`. -/
def invalidate_all : List A64Instr :=
  [A64Instr.dsb DsbDomain.ishst, A64Instr.tlbi TlbiOp.vmalle1is,
   A64Instr.dsb DsbDomain.ish, A64Instr.isb]

/-- Abstract classification of an instruction, at the granularity the spec
speaks about: data barrier, full-TLB invalidation, single-address
invalidation, instruction barrier. -/
inductive InstrKind
  | dataBarrier
  | fullTLBInvalidate
  | singleTLBInvalidate
  | instrBarrier
  deriving DecidableEq

/-- Classify an AArch64 instruction. -/
def instrKind : A64Instr → InstrKind
  | A64Instr.dsb _ => InstrKind.dataBarrier
  | A64Instr.tlbi TlbiOp.vmalle1is => InstrKind.fullTLBInvalidate
  | A64Instr.tlbi _ => InstrKind.singleTLBInvalidate
  | A64Instr.isb => InstrKind.instrBarrier

/-- `AArch64Arch::PAGE_SHIFT` (4096-byte pages). -/
def PAGE_SHIFT : Nat := 12

/-- `AArch64Arch::PAGE_ENTRY_SHIFT` (512 entries per table). -/
def PAGE_ENTRY_SHIFT : Nat := 9

/-- `AArch64Arch::PAGE_LEVELS`. -/
def PAGE_LEVELS : Nat := 4

/-- `AArch64Arch::ENTRY_ADDRESS_WIDTH`. -/
def ENTRY_ADDRESS_WIDTH : Nat := 40

/-- Modelled from the spec: derived constant `PAGE_SIZE = 1 << PAGE_SHIFT`
(the derivation lives outside src/; its value is pinned by the in-src test
asserting `PAGE_SIZE == 4096`). -/
def PAGE_SIZE : Nat := 1 <<< PAGE_SHIFT

/-- Modelled from the spec: derived constant
`PAGE_OFFSET_MASK = PAGE_SIZE - 1` (value pinned by the in-src test
asserting `PAGE_OFFSET_MASK == 0xFFF`). -/
def PAGE_OFFSET_MASK : Nat := PAGE_SIZE - 1

/-- Modelled from the spec: derived constant
`ENTRY_ADDRESS_SIZE = 1 << ENTRY_ADDRESS_WIDTH` (value pinned by the in-src
test asserting `ENTRY_ADDRESS_SIZE == 0x0000_0100_0000_0000`). -/
def ENTRY_ADDRESS_SIZE : Nat := 1 <<< ENTRY_ADDRESS_WIDTH

/-- Modelled from the spec: derived constant
`ENTRY_ADDRESS_MASK = ENTRY_ADDRESS_SIZE - 1` (value pinned by the in-src
test asserting `ENTRY_ADDRESS_MASK == 0x0000_00FF_FFFF_FFFF`). -/
def ENTRY_ADDRESS_MASK : Nat := ENTRY_ADDRESS_SIZE - 1

/-- All 64 bits set: the value of `usize::MAX` on the 64-bit targets this
architecture implementation is for. -/
def U64_MASK : Nat := (1 <<< 64) - 1

/-- Modelled from the spec: derived constant
`ENTRY_FLAGS_MASK = !(ENTRY_ADDRESS_MASK << PAGE_SHIFT)`; the 64-bit
bitwise complement of a submask of `U64_MASK` equals the subtraction from
`U64_MASK` (value pinned by the in-src test asserting
`ENTRY_FLAGS_MASK == 0xFFF0_0000_0000_0FFF`). -/
def ENTRY_FLAGS_MASK : Nat := U64_MASK - (ENTRY_ADDRESS_MASK <<< PAGE_SHIFT)

/-- Concrete two-region scenario of the spec's section 8. -/
def scenarioAreas : List MemoryArea :=
  [⟨0x1000, 0x3000⟩, ⟨0x10000, 0x1000⟩]

/-- Claim C3: for regions [base 0x1000, size 0x3000] and [base 0x10000,
size 0x1000], page size 0x1000 and skip offset 0x2000: construction leaves
the cursor in the first region at in-region offset 0x2000; the first
allocate of 1 frame returns 0x3000; a subsequent allocate of 2 frames
returns none rather than 0x10000. -/
theorem bump_concrete_scenario :
    (BumpAllocator.new scenarioAreas 0x2000).curAreas = (scenarioAreas, 0x2000) ∧
    ((BumpAllocator.new scenarioAreas 0x2000).allocate 0x1000 1).1 = some 0x3000 ∧
    ((((BumpAllocator.new scenarioAreas 0x2000).allocate 0x1000 1).2).allocate
        0x1000 2).1 = none := by
  decide

/-- Claim C7: for every allocator state, address and frame count,
`BumpAllocator::free` fails with the not-implemented panic and never
returns a successor allocator state. -/
theorem bump_free_unimplemented :
    ∀ (s : BumpAllocator) (addr count : Nat),
      s.free addr count = Except.error FreeOutcome.notImplementedPanic ∧
      ∀ s2 : BumpAllocator, s.free addr count ≠ Except.ok s2 := by
  intro s addr count
  exact ⟨rfl, fun s2 h => by cases h⟩

/-- Claim C9: the instruction trace of `AArch64Arch::invalidate_all` is
exactly (data barrier, full TLB invalidation, data barrier, instruction
barrier), in that order, with no omission or reordering. -/
theorem aarch64_invalidate_all_sequence :
    invalidate_all.map instrKind =
      [InstrKind.dataBarrier, InstrKind.fullTLBInvalidate,
       InstrKind.dataBarrier, InstrKind.instrBarrier] := by
  decide

/-- Claim C8 counterexample: the page-offset mask, entry-address mask and
entry-flags mask (at the values asserted by the in-src constants test) are
neither pairwise disjoint nor do they jointly cover every bit of a 64-bit
table entry: the page-offset mask overlaps both other masks, and bits 40 to
51 are covered by none of the three. -/
theorem aarch64_masks_not_disjoint_cover :
    ¬ ((PAGE_OFFSET_MASK &&& ENTRY_ADDRESS_MASK = 0 ∧
        PAGE_OFFSET_MASK &&& ENTRY_FLAGS_MASK = 0 ∧
        ENTRY_ADDRESS_MASK &&& ENTRY_FLAGS_MASK = 0) ∧
       (PAGE_OFFSET_MASK ||| ENTRY_ADDRESS_MASK ||| ENTRY_FLAGS_MASK = U64_MASK)) := by
  decide

/-- Claim C8 (amended): the entry-address field mask (the entry-address
mask shifted left by the page shift, which is how the entry-address mask is
applied to a table entry) and the entry-flags mask are disjoint and
together cover every bit of a 64-bit table entry; the page-offset mask is
contained in the entry-flags mask. -/
theorem aarch64_shifted_masks_partition :
    ((ENTRY_ADDRESS_MASK <<< PAGE_SHIFT) &&& ENTRY_FLAGS_MASK = 0) ∧
    ((ENTRY_ADDRESS_MASK <<< PAGE_SHIFT) ||| ENTRY_FLAGS_MASK = U64_MASK) ∧
    (PAGE_OFFSET_MASK &&& ENTRY_FLAGS_MASK = PAGE_OFFSET_MASK) := by
  decide

/-- The modelled derived constants reproduce exactly the values asserted by
the in-src test `tests::constants` for the AArch64 architecture. -/
theorem derived_constants_match_src_test :
    PAGE_SIZE = 4096 ∧ PAGE_OFFSET_MASK = 0xFFF ∧
    ENTRY_ADDRESS_SIZE = 0x0000010000000000 ∧
    ENTRY_ADDRESS_MASK = 0x000000FFFFFFFFFF ∧
    ENTRY_FLAGS_MASK = 0xFFF0000000000FFF := by
  decide

/-- Claim C4 counterexample: on regions [base 0x1000, size 0x1000] and
[base 0x3000, size 0x1000] with initial offset 0x1000, the first region's
size is not smaller than the offset, yet construction drops it: the
spec-modelled strict drop rule keeps both regions with residual offset
0x1000, while the code's cursor is the second region with offset 0. -/
theorem bump_new_drops_equal_size_region :
    specSkipStrict [⟨0x1000, 0x1000⟩, ⟨0x3000, 0x1000⟩] 0x1000 =
      ([⟨0x1000, 0x1000⟩, ⟨0x3000, 0x1000⟩], 0x1000) ∧
    (BumpAllocator.new [⟨0x1000, 0x1000⟩, ⟨0x3000, 0x1000⟩] 0x1000).curAreas =
      ([⟨0x3000, 0x1000⟩], 0) ∧
    (BumpAllocator.new [⟨0x1000, 0x1000⟩, ⟨0x3000, 0x1000⟩] 0x1000).curAreas ≠
      specSkipStrict [⟨0x1000, 0x1000⟩, ⟨0x3000, 0x1000⟩] 0x1000 := by
  decide

/-- Claim C5 counterexample: over regions [base 0x1000, size 0x1000] and
[base 0x10000, size 0x2000] with page size 0x1000 and zero skip offset, the
first and only allocate of 2 frames succeeds (at 0x10000, after skipping
the too-small first region), yet `usage` reports used = 3, not 2: the
abandoned first region's frame is counted as used. -/
theorem bump_usage_counts_skipped_region :
    (((BumpAllocator.new [⟨0x1000, 0x1000⟩, ⟨0x10000, 0x2000⟩] 0).allocate
        0x1000 2).1 = some 0x10000) ∧
    ((((BumpAllocator.new [⟨0x1000, 0x1000⟩, ⟨0x10000, 0x2000⟩] 0).allocate
        0x1000 2).2.usage 0x1000).used = 3) ∧
    ¬ ((((BumpAllocator.new [⟨0x1000, 0x1000⟩, ⟨0x10000, 0x2000⟩] 0).allocate
        0x1000 2).2.usage 0x1000).used = 2) := by
  decide

/-- Claim C1 counterexample: over the ascending, non-overlapping region
list [base 0x1000, size 0x1000] with page size 0x1000, two allocate calls
of 0 frames both succeed and both return address 0x1000, so the addresses
returned by successful calls are not strictly increasing. -/
theorem bump_zero_count_not_increasing :
    AreasSorted [⟨0x1000, 0x1000⟩] ∧
    (allocSpans 0x1000 (BumpAllocator.new [⟨0x1000, 0x1000⟩] 0) [0, 0]).map
      Prod.fst = [0x1000, 0x1000] ∧
    ¬ ((allocSpans 0x1000 (BumpAllocator.new [⟨0x1000, 0x1000⟩] 0) [0, 0]).map
        Prod.fst).Pairwise (fun x y => x < y) := by
  refine ⟨by unfold AreasSorted; exact List.chain'_singleton _, by decide, ?_⟩
  have he : (allocSpans 0x1000 (BumpAllocator.new [⟨0x1000, 0x1000⟩] 0) [0, 0]).map
      Prod.fst = [0x1000, 0x1000] := by decide
  rw [he]
  intro h
  have hlt := List.rel_of_pairwise_cons h (List.mem_cons_self _ _)
  omega

theorem sumSizes_nil : sumSizes [] = 0 := rfl

theorem sumSizes_cons (a : MemoryArea) (l : List MemoryArea) :
    sumSizes (a :: l) = a.size + sumSizes l := by
  simp [sumSizes]

theorem headSize_le_sum (l : List MemoryArea) : headSize l ≤ sumSizes l := by
  cases l with
  | nil => exact Nat.le_refl 0
  | cons a t => rw [sumSizes_cons]; exact Nat.le_add_right _ _

theorem invS_invW (p : List MemoryArea × Nat) (h : InvS p) : InvW p := by
  obtain ⟨l, off⟩ := p
  cases l with
  | nil => trivial
  | cons a t => exact h

theorem skip_invW (areas : List MemoryArea) : ∀ off : Nat, InvW (skipAreas areas off) := by
  induction areas with
  | nil => intro off; trivial
  | cons a rest ih =>
    intro off
    by_cases h : a.size ≤ off
    · simpa [skipAreas, h] using ih (off - a.size)
    · simp only [skipAreas, if_neg h]
      exact Nat.le_of_lt (Nat.lt_of_not_le h)

theorem skip_chain (areas : List MemoryArea) :
    ∀ off : Nat, AreasChain areas → AreasChain (skipAreas areas off).1 := by
  induction areas with
  | nil => intro off h; exact h
  | cons a rest ih =>
    intro off h
    by_cases hc : a.size ≤ off
    · simp only [skipAreas, if_pos hc]
      exact ih _ h.tail
    · simpa [skipAreas, hc] using h

theorem skip_free_le (areas : List MemoryArea) :
    ∀ off : Nat, freeBytes (skipAreas areas off) ≤ sumSizes areas - off := by
  induction areas with
  | nil => intro off; exact Nat.le_refl _
  | cons a rest ih =>
    intro off
    by_cases hc : a.size ≤ off
    · simp only [skipAreas, if_pos hc, sumSizes_cons]
      have := ih (off - a.size)
      omega
    · simp only [skipAreas, if_neg hc, freeBytes, sumSizes_cons]
      omega

theorem skip_invS (areas : List MemoryArea) :
    ∀ off : Nat, off ≤ sumSizes areas → InvS (skipAreas areas off) := by
  induction areas with
  | nil =>
    intro off h
    have : off = 0 := Nat.le_antisymm h (Nat.zero_le _)
    simp [skipAreas, InvS, headSize, this]
  | cons a rest ih =>
    intro off h
    rw [sumSizes_cons] at h
    by_cases hc : a.size ≤ off
    · simp only [skipAreas, if_pos hc]
      exact ih _ (by omega)
    · simp only [skipAreas, if_neg hc]
      exact Nat.le_of_lt (Nat.lt_of_not_le hc)

theorem skip_over (areas : List MemoryArea) :
    ∀ off : Nat, sumSizes areas < off →
      skipAreas areas off = ([], off - sumSizes areas) := by
  induction areas with
  | nil => intro off _; simp [skipAreas, sumSizes_nil]
  | cons a rest ih =>
    intro off h
    rw [sumSizes_cons] at h
    have hc : a.size ≤ off := by omega
    simp only [skipAreas, if_pos hc]
    rw [ih (off - a.size) (by omega), sumSizes_cons]
    simp only [Prod.mk.injEq, true_and]
    omega

theorem skip_zero (areas : List MemoryArea) :
    (skipAreas areas 0).2 = 0 ∧ sumSizes (skipAreas areas 0).1 = sumSizes areas := by
  induction areas with
  | nil => exact ⟨rfl, rfl⟩
  | cons a rest ih =>
    by_cases hc : a.size ≤ 0
    · have hz : a.size = 0 := Nat.le_antisymm hc (Nat.zero_le _)
      have he : (0 : Nat) - a.size = 0 := by omega
      simp only [skipAreas, if_pos hc, he]
      exact ⟨ih.1, by rw [ih.2, sumSizes_cons, hz, Nat.zero_add]⟩
    · have hz : a.size ≠ 0 := by omega
      simp [skipAreas, hz]

theorem allocLoop_none_empty (req : Nat) (areas : List MemoryArea) :
    ∀ off : Nat, (allocLoop req areas off).1 = none →
      (allocLoop req areas off).2.1 = [] := by
  induction areas with
  | nil => intro off _; rfl
  | cons a rest ih =>
    intro off h
    by_cases hc : a.size - off < req
    · simp only [allocLoop, if_pos hc] at h ⊢
      exact ih 0 h
    · simp [allocLoop, if_neg hc] at h

theorem allocLoop_invS (req : Nat) (areas : List MemoryArea) :
    ∀ off : Nat, InvS (areas, off) → InvS (allocLoop req areas off).2 := by
  induction areas with
  | nil => intro off h; exact h
  | cons a rest ih =>
    intro off h
    have hoff : off ≤ a.size := h
    by_cases hc : a.size - off < req
    · simp only [allocLoop, if_pos hc]
      exact ih 0 (Nat.zero_le _)
    · simp only [allocLoop, if_neg hc]
      show off + req ≤ a.size
      omega

theorem allocLoop_free_le (req : Nat) (areas : List MemoryArea) :
    ∀ off : Nat, InvW (areas, off) →
      freeBytes (allocLoop req areas off).2 ≤ freeBytes (areas, off) := by
  induction areas with
  | nil => intro off _; exact Nat.le_refl _
  | cons a rest ih =>
    intro off h
    have hoff : off ≤ a.size := h
    by_cases hc : a.size - off < req
    · simp only [allocLoop, if_pos hc]
      have h1 := ih 0 (by cases rest <;> first | trivial | exact Nat.zero_le _)
      have h2 : freeBytes (rest, 0) ≤ freeBytes (a :: rest, off) := by
        simp only [freeBytes, sumSizes_cons]
        omega
      exact Nat.le_trans h1 h2
    · simp only [allocLoop, if_neg hc, freeBytes, sumSizes_cons]
      omega

theorem allocLoop_some_spec (req : Nat) (areas : List MemoryArea) :
    ∀ (off a : Nat), (allocLoop req areas off).1 = some a →
      InvW (areas, off) → AreasChain areas →
      headPos (areas, off) ≤ a ∧
      headPos ((allocLoop req areas off).2) = a + req ∧
      InvW ((allocLoop req areas off).2) ∧
      AreasChain ((allocLoop req areas off).2).1 ∧
      freeBytes ((allocLoop req areas off).2) + req ≤ freeBytes (areas, off) := by
  induction areas with
  | nil => intro off a h; simp [allocLoop] at h
  | cons x rest ih =>
    intro off a h hInv hChain
    have hoff : off ≤ x.size := hInv
    by_cases hc : x.size - off < req
    · simp only [allocLoop, if_pos hc] at h ⊢
      have hInv2 : InvW (rest, (0 : Nat)) := by
        cases rest with
        | nil => trivial
        | cons y t => exact Nat.zero_le _
      have ih2 := ih 0 a h hInv2 hChain.tail
      refine ⟨?_, ih2.2.1, ih2.2.2.1, ih2.2.2.2.1, ?_⟩
      · cases rest with
        | nil => simp [allocLoop] at h
        | cons y t =>
          have hxy : x.base + x.size ≤ y.base := (List.chain'_cons.mp hChain).1
          have h1 : headPos (x :: y :: t, off) ≤ headPos (y :: t, (0 : Nat)) := by
            simp only [headPos]
            omega
          exact Nat.le_trans h1 ih2.1
      · have h2 : freeBytes (rest, (0 : Nat)) ≤ freeBytes (x :: rest, off) := by
          simp only [freeBytes, sumSizes_cons]
          omega
        exact Nat.le_trans ih2.2.2.2.2 h2
    · simp only [allocLoop, if_neg hc, Option.some.injEq] at h ⊢
      subst h
      refine ⟨Nat.le_refl _, ?_, ?_, hChain, ?_⟩
      · simp only [headPos]
        omega
      · show off + req ≤ x.size
        omega
      · simp only [freeBytes, sumSizes_cons]
        omega

theorem allocate_fst (p : Nat) (s : BumpAllocator) (c : Nat) :
    (s.allocate p c).1 = (allocLoop (c * p) s.curAreas.1 s.curAreas.2).1 := rfl

theorem allocate_snd_cur (p : Nat) (s : BumpAllocator) (c : Nat) :
    (s.allocate p c).2.curAreas = (allocLoop (c * p) s.curAreas.1 s.curAreas.2).2 := rfl

theorem allocate_snd_orig (p : Nat) (s : BumpAllocator) (c : Nat) :
    (s.allocate p c).2.origAreas = s.origAreas := rfl

theorem allocSpans_cons (p c : Nat) (cs : List Nat) (s : BumpAllocator) :
    allocSpans p s (c :: cs) =
      match (s.allocate p c).1 with
      | none => allocSpans p (s.allocate p c).2 cs
      | some a => (a, c * p) :: allocSpans p (s.allocate p c).2 cs := rfl

theorem allocSeq_cons (p c : Nat) (cs : List Nat) (s : BumpAllocator) :
    allocSeq p s (c :: cs) =
      ((s.allocate p c).1 :: (allocSeq p (s.allocate p c).2 cs).1,
       (allocSeq p (s.allocate p c).2 cs).2) := rfl

theorem allocSpans_empty (p : Nat) (cs : List Nat) :
    ∀ s : BumpAllocator, s.curAreas.1 = [] → allocSpans p s cs = [] := by
  induction cs with
  | nil => intro s _; rfl
  | cons c cs ih =>
    intro s h
    have h1 : (s.allocate p c).1 = none := by
      rw [allocate_fst, h]; rfl
    have h2 : (s.allocate p c).2.curAreas.1 = [] := by
      rw [allocate_snd_cur, h]; rfl
    rw [allocSpans_cons, h1]
    exact ih _ h2

theorem allocLoop_some_free (req : Nat) (areas : List MemoryArea) :
    ∀ (off a : Nat), (allocLoop req areas off).1 = some a → InvW (areas, off) →
      InvW ((allocLoop req areas off).2) ∧
      freeBytes ((allocLoop req areas off).2) + req ≤ freeBytes (areas, off) := by
  induction areas with
  | nil => intro off a h; simp [allocLoop] at h
  | cons x rest ih =>
    intro off a h hInv
    have hoff : off ≤ x.size := hInv
    by_cases hc : x.size - off < req
    · simp only [allocLoop, if_pos hc] at h ⊢
      have hInv2 : InvW (rest, (0 : Nat)) := by
        cases rest with
        | nil => trivial
        | cons y t => exact Nat.zero_le _
      have ih2 := ih 0 a h hInv2
      refine ⟨ih2.1, ?_⟩
      have h2 : freeBytes (rest, (0 : Nat)) ≤ freeBytes (x :: rest, off) := by
        simp only [freeBytes, sumSizes_cons]
        omega
      exact Nat.le_trans ih2.2 h2
    · simp only [allocLoop, if_neg hc] at h ⊢
      constructor
      · show off + req ≤ x.size
        omega
      · simp only [freeBytes, sumSizes_cons]
        omega

theorem allocSpans_sum_le (p : Nat) (cs : List Nat) :
    ∀ s : BumpAllocator, InvW s.curAreas →
      ((allocSpans p s cs).map Prod.snd).sum ≤ freeBytes s.curAreas := by
  induction cs with
  | nil => intro s _; exact Nat.zero_le _
  | cons c cs ih =>
    intro s hInv
    rcases ho : (s.allocate p c).1 with _ | a
    · have hemp : (s.allocate p c).2.curAreas.1 = [] := by
        rw [allocate_snd_cur]
        exact allocLoop_none_empty (c * p) s.curAreas.1 s.curAreas.2 ho
      rw [allocSpans_cons, ho, allocSpans_empty p cs _ hemp]
      exact Nat.zero_le _
    · have hspec := allocLoop_some_free (c * p) s.curAreas.1 s.curAreas.2 a ho hInv
      have hInv2 : InvW (s.allocate p c).2.curAreas := by
        rw [allocate_snd_cur]; exact hspec.1
      have ih2 := ih _ hInv2
      rw [allocSpans_cons, ho]
      simp only [List.map_cons, List.sum_cons]
      rw [allocate_snd_cur] at ih2
      have hfb : freeBytes s.curAreas = freeBytes (s.curAreas.1, s.curAreas.2) := rfl
      rw [hfb]
      have := hspec.2
      omega

theorem allocSpans_spec (p : Nat) (cs : List Nat) :
    ∀ s : BumpAllocator, InvW s.curAreas → AreasChain s.curAreas.1 →
      (∀ sp ∈ allocSpans p s cs, headPos s.curAreas ≤ sp.1) ∧
      (allocSpans p s cs).Pairwise (fun q r => q.1 + q.2 ≤ r.1) := by
  induction cs with
  | nil =>
    intro s _ _
    exact ⟨fun sp h => absurd h (List.not_mem_nil sp), List.Pairwise.nil⟩
  | cons c cs ih =>
    intro s hInv hChain
    rcases ho : (s.allocate p c).1 with _ | a
    · have hemp : (s.allocate p c).2.curAreas.1 = [] := by
        rw [allocate_snd_cur]
        exact allocLoop_none_empty (c * p) s.curAreas.1 s.curAreas.2 ho
      rw [allocSpans_cons, ho, allocSpans_empty p cs _ hemp]
      exact ⟨fun sp h => absurd h (List.not_mem_nil sp), List.Pairwise.nil⟩
    · have hspec := allocLoop_some_spec (c * p) s.curAreas.1 s.curAreas.2 a ho hInv hChain
      obtain ⟨hle, hpos, hInv2, hChain2, _⟩ := hspec
      have hInv2' : InvW (s.allocate p c).2.curAreas := by
        rw [allocate_snd_cur]; exact hInv2
      have hChain2' : AreasChain (s.allocate p c).2.curAreas.1 := by
        rw [allocate_snd_cur]; exact hChain2
      have ih2 := ih _ hInv2' hChain2'
      have hrest : ∀ sp ∈ allocSpans p (s.allocate p c).2 cs, a + c * p ≤ sp.1 := by
        intro sp hsp
        have h1 := ih2.1 sp hsp
        rw [allocate_snd_cur, hpos] at h1
        exact h1
      rw [allocSpans_cons, ho]
      constructor
      · intro sp hsp
        have hhp : headPos s.curAreas = headPos (s.curAreas.1, s.curAreas.2) := rfl
        rcases List.mem_cons.mp hsp with h1 | h1
        · rw [h1, hhp]
          exact hle
        · have h2 := hrest sp h1
          rw [hhp]
          omega
      · exact List.pairwise_cons.mpr ⟨fun r hr => hrest r hr, ih2.2⟩

theorem allocSpans_size_mem (p : Nat) (cs : List Nat) :
    ∀ (s : BumpAllocator) (sp : Nat × Nat),
      sp ∈ allocSpans p s cs → ∃ c ∈ cs, sp.2 = c * p := by
  induction cs with
  | nil => intro s sp h; exact absurd h (List.not_mem_nil sp)
  | cons c cs ih =>
    intro s sp h
    rcases ho : (s.allocate p c).1 with _ | a
    · rw [allocSpans_cons, ho] at h
      obtain ⟨c2, hc2, he⟩ := ih _ _ h
      exact ⟨c2, List.mem_cons_of_mem _ hc2, he⟩
    · rw [allocSpans_cons, ho] at h
      rcases List.mem_cons.mp h with h1 | h1
      · exact ⟨c, List.mem_cons_self _ _, by rw [h1]⟩
      · obtain ⟨c2, hc2, he⟩ := ih _ _ h1
        exact ⟨c2, List.mem_cons_of_mem _ hc2, he⟩

theorem allocSeq_all_none (p : Nat) (cs : List Nat) :
    ∀ s : BumpAllocator, s.curAreas.1 = [] →
      (allocSeq p s cs).1.all Option.isNone = true := by
  induction cs with
  | nil => intro s _; rfl
  | cons c cs ih =>
    intro s h
    have h1 : (s.allocate p c).1 = none := by
      rw [allocate_fst, h]; rfl
    have h2 : (s.allocate p c).2.curAreas.1 = [] := by
      rw [allocate_snd_cur, h]; rfl
    rw [allocSeq_cons]
    simp only [List.all_cons, h1, Option.isNone_none, Bool.true_and]
    exact ih _ h2

theorem allocSeq_orig (p : Nat) (cs : List Nat) :
    ∀ s : BumpAllocator, (allocSeq p s cs).2.origAreas = s.origAreas := by
  induction cs with
  | nil => intro s; rfl
  | cons c cs ih =>
    intro s
    rw [allocSeq_cons]
    exact (ih _).trans (allocate_snd_orig p s c)

theorem allocSeq_invS_free (p : Nat) (cs : List Nat) :
    ∀ s : BumpAllocator, InvS s.curAreas →
      freeBytes s.curAreas ≤ sumSizes s.origAreas.1 - s.origAreas.2 →
      InvS (allocSeq p s cs).2.curAreas ∧
      freeBytes (allocSeq p s cs).2.curAreas ≤
        sumSizes s.origAreas.1 - s.origAreas.2 := by
  induction cs with
  | nil => intro s h1 h2; exact ⟨h1, h2⟩
  | cons c cs ih =>
    intro s h1 h2
    have hInvS2 : InvS (s.allocate p c).2.curAreas := by
      rw [allocate_snd_cur]
      exact allocLoop_invS (c * p) s.curAreas.1 s.curAreas.2 h1
    have hfree2 : freeBytes (s.allocate p c).2.curAreas ≤
        sumSizes s.origAreas.1 - s.origAreas.2 := by
      rw [allocate_snd_cur]
      exact Nat.le_trans
        (allocLoop_free_le (c * p) s.curAreas.1 s.curAreas.2 (invS_invW _ h1)) h2
    have h3 := ih _ hInvS2 hfree2
    rw [allocate_snd_orig] at h3
    rw [allocSeq_cons]
    exact h3

/-- Claim C1 (amended): for every ascending, non-overlapping region list,
every initial skip offset, a positive page size, and every sequence of
allocate calls each requesting at least one frame, the addresses returned
by the successful calls are strictly increasing and their byte spans are
pairwise disjoint. (The original claim, without the positive-count
requirement, fails on zero-frame requests.) -/
theorem bump_allocate_increasing_disjoint :
    ∀ (pageSize : Nat) (areas : List MemoryArea) (off : Nat) (cs : List Nat),
      AreasSorted areas → 1 ≤ pageSize → (∀ c ∈ cs, 1 ≤ c) →
      ((allocSpans pageSize (BumpAllocator.new areas off) cs).map Prod.fst).Pairwise
        (fun x y => x < y) ∧
      (allocSpans pageSize (BumpAllocator.new areas off) cs).Pairwise
        (fun q r => q.1 + q.2 ≤ r.1 ∨ r.1 + r.2 ≤ q.1) := by
  intro pageSize areas off cs hSorted hp hc
  have hChain : AreasChain areas := List.Chain'.imp (fun _ _ h => h.1) hSorted
  have hInv : InvW (BumpAllocator.new areas off).curAreas := skip_invW areas off
  have hChain2 : AreasChain (BumpAllocator.new areas off).curAreas.1 :=
    skip_chain areas off hChain
  have hspec := allocSpans_spec pageSize cs (BumpAllocator.new areas off) hInv hChain2
  have hsz : ∀ sp ∈ allocSpans pageSize (BumpAllocator.new areas off) cs, 1 ≤ sp.2 := by
    intro sp hsp
    obtain ⟨c, hcm, he⟩ := allocSpans_size_mem pageSize cs _ sp hsp
    rw [he]
    calc 1 = 1 * 1 := (Nat.mul_one 1).symm
    _ ≤ c * pageSize := Nat.mul_le_mul (hc c hcm) hp
  constructor
  · rw [List.pairwise_map]
    refine List.Pairwise.imp_of_mem ?_ hspec.2
    intro q r hq _ h
    have := hsz q hq
    omega
  · exact hspec.2.imp (fun h => Or.inl h)

/-- Claim C1 witness: a concrete instantiation of the amended claim on the
region [base 0x1000, size 0x2000] with two one-frame requests. -/
theorem bump_allocate_increasing_disjoint_witness :
    AreasSorted [⟨0x1000, 0x2000⟩] ∧ 1 ≤ 0x1000 ∧ (∀ c ∈ [1, 1], 1 ≤ c) ∧
    (((allocSpans 0x1000 (BumpAllocator.new [⟨0x1000, 0x2000⟩] 0) [1, 1]).map
        Prod.fst).Pairwise (fun x y => x < y) ∧
     (allocSpans 0x1000 (BumpAllocator.new [⟨0x1000, 0x2000⟩] 0) [1, 1]).Pairwise
        (fun q r => q.1 + q.2 ≤ r.1 ∨ r.1 + r.2 ≤ q.1)) :=
  ⟨List.chain'_singleton _, by decide, by decide,
   bump_allocate_increasing_disjoint 0x1000 [⟨0x1000, 0x2000⟩] 0 [1, 1]
     (List.chain'_singleton _) (by decide) (by decide)⟩

/-- Claim C2: over regions whose sizes sum to T with skip offset S, the
cumulative bytes handed out by the successful calls of any allocate
sequence never exceed T - S; and once an allocate call returns none, every
subsequent allocate call (for any count) also returns none. -/
theorem bump_capacity_and_exhaustion :
    ∀ (pageSize : Nat) (areas : List MemoryArea) (S : Nat) (cs : List Nat),
      ((allocSpans pageSize (BumpAllocator.new areas S) cs).map Prod.snd).sum ≤
        sumSizes areas - S ∧
      ∀ (s : BumpAllocator) (c : Nat), (s.allocate pageSize c).1 = none →
        ∀ cs2 : List Nat,
          (allocSeq pageSize ((s.allocate pageSize c).2) cs2).1.all
            Option.isNone = true := by
  intro pageSize areas S cs
  constructor
  · have h1 := allocSpans_sum_le pageSize cs (BumpAllocator.new areas S)
      (skip_invW areas S)
    have h2 : freeBytes (BumpAllocator.new areas S).curAreas ≤ sumSizes areas - S :=
      skip_free_le areas S
    exact Nat.le_trans h1 h2
  · intro s c h cs2
    have hemp : (s.allocate pageSize c).2.curAreas.1 = [] := by
      rw [allocate_snd_cur]
      exact allocLoop_none_empty (c * pageSize) s.curAreas.1 s.curAreas.2 h
    exact allocSeq_all_none pageSize cs2 _ hemp

/-- Claim C2 witness: the capacity bound on a concrete one-region allocator,
and the permanent exhaustion after a failing call on an allocator built
over no regions. -/
theorem bump_capacity_and_exhaustion_witness :
    ((allocSpans 0x1000 (BumpAllocator.new [⟨0x0, 0x1000⟩] 0) [1]).map
        Prod.snd).sum ≤ sumSizes [⟨0x0, 0x1000⟩] - 0 ∧
    ((BumpAllocator.new [] 0).allocate 0x1000 1).1 = none ∧
    (allocSeq 0x1000 (((BumpAllocator.new [] 0).allocate 0x1000 1).2)
      [2, 3]).1.all Option.isNone = true :=
  ⟨(bump_capacity_and_exhaustion 0x1000 [⟨0x0, 0x1000⟩] 0 [1]).1, rfl,
   (bump_capacity_and_exhaustion 0x1000 [] 0 []).2 (BumpAllocator.new [] 0) 1 rfl
     [2, 3]⟩

theorem skip_characterization (areas : List MemoryArea) :
    ∀ off : Nat, ∃ k, k ≤ areas.length ∧
      sumSizes (List.take k areas) ≤ off ∧
      skipAreas areas off = (List.drop k areas, off - sumSizes (List.take k areas)) ∧
      (List.drop k areas = [] ∨
        off - sumSizes (List.take k areas) < headSize (List.drop k areas)) := by
  induction areas with
  | nil =>
    intro off
    exact ⟨0, Nat.le_refl 0, Nat.zero_le _, by simp [skipAreas, sumSizes_nil],
      Or.inl rfl⟩
  | cons a rest ih =>
    intro off
    by_cases hc : a.size ≤ off
    · obtain ⟨k, hk, hsum, heq, hend⟩ := ih (off - a.size)
      refine ⟨k + 1, by simpa using Nat.succ_le_succ hk, ?_, ?_, ?_⟩
      · rw [List.take_succ_cons, sumSizes_cons]
        omega
      · rw [List.drop_succ_cons, List.take_succ_cons, sumSizes_cons]
        simp only [skipAreas, if_pos hc]
        rw [heq]
        simp only [Prod.mk.injEq, true_and]
        omega
      · rw [List.drop_succ_cons, List.take_succ_cons, sumSizes_cons]
        have hoff : off - a.size - sumSizes (List.take k rest) =
            off - (a.size + sumSizes (List.take k rest)) := by omega
        rw [← hoff]
        exact hend
    · refine ⟨0, Nat.zero_le _, Nat.zero_le _, ?_, ?_⟩
      · simp [skipAreas, if_neg hc, sumSizes_nil]
      · right
        show off - sumSizes [] < headSize (a :: rest)
        rw [sumSizes_nil]
        show off - 0 < a.size
        omega

/-- Claim C4 (amended): for every region list and initial byte offset,
construction drops exactly the leading regions whose size is at most (not
strictly smaller than) the running remaining offset, subtracting each
dropped region's size from the offset, and terminates either with the
residual offset strictly inside the first remaining region or with an
empty region list; both stored cursors equal this normalized pair. -/
theorem bump_new_characterization :
    ∀ (areas : List MemoryArea) (off : Nat), ∃ k, k ≤ areas.length ∧
      sumSizes (List.take k areas) ≤ off ∧
      (BumpAllocator.new areas off).curAreas =
        (List.drop k areas, off - sumSizes (List.take k areas)) ∧
      (BumpAllocator.new areas off).origAreas =
        (BumpAllocator.new areas off).curAreas ∧
      (List.drop k areas = [] ∨
        off - sumSizes (List.take k areas) < headSize (List.drop k areas)) := by
  intro areas off
  obtain ⟨k, hk, hsum, heq, hend⟩ := skip_characterization areas off
  exact ⟨k, hk, hsum, heq, rfl, hend⟩

/-- Claim C5 (amended): if a BumpAllocator is constructed with zero skip
offset and the requested k frames fit in the first remaining region, the
first allocate call succeeds at that region's base and usage() then reports
used = k and total = (sum of all region sizes) / page size. (The original
claim, for any successful first call, fails when the call skips a too-small
region: the skipped bytes are also counted as used.) -/
theorem bump_usage_first_alloc :
    ∀ (p : Nat) (areas : List MemoryArea) (k : Nat) (a : MemoryArea)
      (rest : List MemoryArea),
      0 < p →
      (BumpAllocator.new areas 0).curAreas.1 = a :: rest →
      k * p ≤ a.size →
      ((BumpAllocator.new areas 0).allocate p k).1 = some a.base ∧
      (((BumpAllocator.new areas 0).allocate p k).2.usage p).used = k ∧
      (((BumpAllocator.new areas 0).allocate p k).2.usage p).total =
        sumSizes areas / p := by
  intro p areas k a rest hp hhead hfit
  have hz := skip_zero areas
  have hhead' : (skipAreas areas 0).1 = a :: rest := hhead
  have hsum : sumSizes (a :: rest) = sumSizes areas := by rw [← hhead', hz.2]
  have hka : k * p ≤ sumSizes areas := by
    rw [← hsum, sumSizes_cons]; omega
  have hno : ¬ (a.size - 0 < k * p) := by omega
  have hloop : allocLoop (k * p) (a :: rest) 0 =
      (some (a.base + 0), (a :: rest, 0 + k * p)) := by
    simp only [allocLoop, if_neg hno]
  have hcur1 : (BumpAllocator.new areas 0).curAreas.1 = a :: rest := hhead
  have hcur2 : (BumpAllocator.new areas 0).curAreas.2 = 0 := hz.1
  have hfst : ((BumpAllocator.new areas 0).allocate p k).1 = some a.base := by
    rw [allocate_fst, hcur1, hcur2, hloop]
    simp
  have hsnd : ((BumpAllocator.new areas 0).allocate p k).2.curAreas =
      (a :: rest, k * p) := by
    rw [allocate_snd_cur, hcur1, hcur2, hloop]
    simp
  have horig : ((BumpAllocator.new areas 0).allocate p k).2.origAreas =
      skipAreas areas 0 := allocate_snd_orig p _ k
  have hsum2 : a.size + sumSizes rest = sumSizes areas := by
    rw [← hsum, sumSizes_cons]
  refine ⟨hfst, ?_, ?_⟩
  · simp only [BumpAllocator.usage, horig, hsnd, hz.1, hz.2, sumSizes_cons]
    have h1 : sumSizes areas - 0 - (a.size + sumSizes rest - k * p) = k * p := by
      omega
    rw [h1]
    exact Nat.mul_div_cancel k hp
  · simp only [BumpAllocator.usage, horig, hz.1, hz.2, Nat.sub_zero]

/-- Claim C5 witness: the amended usage claim instantiated on the single
region [base 0x1000, size 0x2000] with one requested frame. -/
theorem bump_usage_first_alloc_witness :
    (0 < 0x1000) ∧
    ((BumpAllocator.new [⟨0x1000, 0x2000⟩] 0).curAreas.1 =
      (⟨0x1000, 0x2000⟩ : MemoryArea) :: []) ∧
    (1 * 0x1000 ≤ (0x2000 : Nat)) ∧
    (((BumpAllocator.new [⟨0x1000, 0x2000⟩] 0).allocate 0x1000 1).1 =
      some 0x1000 ∧
    (((BumpAllocator.new [⟨0x1000, 0x2000⟩] 0).allocate 0x1000 1).2.usage
        0x1000).used = 1 ∧
    (((BumpAllocator.new [⟨0x1000, 0x2000⟩] 0).allocate 0x1000 1).2.usage
        0x1000).total = sumSizes [⟨0x1000, 0x2000⟩] / 0x1000) :=
  ⟨by decide, by decide, by decide,
   bump_usage_first_alloc 0x1000 [⟨0x1000, 0x2000⟩] 1 ⟨0x1000, 0x2000⟩ []
     (by decide) (by decide) (by decide)⟩

theorem allocateMem_none (p : Nat) (s : BumpAllocator) (mem : Nat → Nat) (c : Nat)
    (h : (s.allocate p c).1 = none) :
    BumpAllocator.allocateMem p s mem c = (none, (s.allocate p c).2, mem) := by
  show (match (s.allocate p c).1 with
        | some a => (some a, (s.allocate p c).2,
            write_bytes mem (phys_to_virt a) 0 (c * p))
        | none => (none, (s.allocate p c).2, mem)) =
      (none, (s.allocate p c).2, mem)
  rw [h]

theorem allocateMem_some (p : Nat) (s : BumpAllocator) (mem : Nat → Nat) (c a : Nat)
    (h : (s.allocate p c).1 = some a) :
    BumpAllocator.allocateMem p s mem c =
      (some a, (s.allocate p c).2, write_bytes mem (phys_to_virt a) 0 (c * p)) := by
  show (match (s.allocate p c).1 with
        | some b => (some b, (s.allocate p c).2,
            write_bytes mem (phys_to_virt b) 0 (c * p))
        | none => (none, (s.allocate p c).2, mem)) =
      (some a, (s.allocate p c).2, write_bytes mem (phys_to_virt a) 0 (c * p))
  rw [h]

/-- Claim C6: every successful allocate call zero-fills the returned span
before returning it: each byte of the count*pageSize bytes starting at the
returned address reads as zero through the physical-to-virtual mapping. -/
theorem bump_allocate_zero_fills :
    ∀ (p : Nat) (s : BumpAllocator) (mem : Nat → Nat) (c a : Nat),
      (BumpAllocator.allocateMem p s mem c).1 = some a →
      ∀ x : Nat, a ≤ x → x < a + c * p →
        (BumpAllocator.allocateMem p s mem c).2.2 (phys_to_virt x) = 0 := by
  intro p s mem c a h x hx1 hx2
  rcases ho : (s.allocate p c).1 with _ | b
  · rw [allocateMem_none p s mem c ho] at h
    simp at h
  · rw [allocateMem_some p s mem c b ho] at h
    have hb : b = a := by simpa using h
    subst hb
    rw [allocateMem_some p s mem c b ho]
    simp only [write_bytes, phys_to_virt]
    rw [if_pos]
    exact ⟨by omega, by omega⟩

/-- Claim C6 witness: a concrete allocation over memory previously filled
with the byte 7; the byte at physical address 0x1500 inside the returned
one-frame span at 0x1000 reads as zero through the direct mapping. -/
theorem bump_allocate_zero_fills_witness :
    ((BumpAllocator.allocateMem 0x1000 (BumpAllocator.new [⟨0x1000, 0x1000⟩] 0)
        (fun _ => 7) 1).1 = some 0x1000) ∧
    ((0x1000 : Nat) ≤ 0x1500) ∧ ((0x1500 : Nat) < 0x1000 + 1 * 0x1000) ∧
    (BumpAllocator.allocateMem 0x1000 (BumpAllocator.new [⟨0x1000, 0x1000⟩] 0)
        (fun _ => 7) 1).2.2 (phys_to_virt 0x1500) = 0 := by
  have h1 : ((BumpAllocator.new [⟨0x1000, 0x1000⟩] 0).allocate 0x1000 1).1 =
      some 0x1000 := by decide
  have h2 : (BumpAllocator.allocateMem 0x1000
      (BumpAllocator.new [⟨0x1000, 0x1000⟩] 0) (fun _ => 7) 1).1 =
      some 0x1000 := by
    rw [allocateMem_some 0x1000 (BumpAllocator.new [⟨0x1000, 0x1000⟩] 0)
      (fun _ => 7) 1 0x1000 h1]
  exact ⟨h2, by decide, by decide,
    bump_allocate_zero_fills 0x1000 (BumpAllocator.new [⟨0x1000, 0x1000⟩] 0)
      (fun _ => 7) 1 0x1000 h2 0x1500 (by decide) (by decide)⟩

/-- Claim C10: if the initial byte offset is at most the sum of the region
sizes, then at every state reachable by any sequence of allocate calls the
subtractions inside usage() (and the derived offset()) are well-defined
over the naturals: the stored original offset is at most the sum of the
original region sizes, the current offset is at most the sum of the current
region sizes, and free bytes never exceed total bytes. Without that
precondition, construction leaves a positive residual offset paired with an
empty region list, and the total-capacity subtraction in usage()
underflows (its minuend is smaller than its subtrahend). -/
theorem bump_usage_no_underflow :
    ∀ (p : Nat) (areas : List MemoryArea) (off : Nat),
      (off ≤ sumSizes areas → ∀ cs : List Nat,
        ((allocSeq p (BumpAllocator.new areas off) cs).2.origAreas.2 ≤
            sumSizes (allocSeq p (BumpAllocator.new areas off) cs).2.origAreas.1) ∧
        ((allocSeq p (BumpAllocator.new areas off) cs).2.curAreas.2 ≤
            sumSizes (allocSeq p (BumpAllocator.new areas off) cs).2.curAreas.1) ∧
        (sumSizes (allocSeq p (BumpAllocator.new areas off) cs).2.curAreas.1 -
            (allocSeq p (BumpAllocator.new areas off) cs).2.curAreas.2 ≤
          sumSizes (allocSeq p (BumpAllocator.new areas off) cs).2.origAreas.1 -
            (allocSeq p (BumpAllocator.new areas off) cs).2.origAreas.2)) ∧
      (sumSizes areas < off →
        (BumpAllocator.new areas off).curAreas.1 = [] ∧
        0 < (BumpAllocator.new areas off).curAreas.2 ∧
        sumSizes (BumpAllocator.new areas off).origAreas.1 <
          (BumpAllocator.new areas off).origAreas.2) := by
  intro p areas off
  constructor
  · intro hle cs
    have hS : InvS (BumpAllocator.new areas off).curAreas := skip_invS areas off hle
    have hfree0 : freeBytes (BumpAllocator.new areas off).curAreas ≤
        sumSizes (BumpAllocator.new areas off).origAreas.1 -
          (BumpAllocator.new areas off).origAreas.2 := Nat.le_refl _
    have hmain := allocSeq_invS_free p cs (BumpAllocator.new areas off) hS hfree0
    have horig := allocSeq_orig p cs (BumpAllocator.new areas off)
    refine ⟨?_, ?_, ?_⟩
    · rw [horig]
      exact Nat.le_trans (skip_invS areas off hle) (headSize_le_sum _)
    · exact Nat.le_trans hmain.1 (headSize_le_sum _)
    · rw [horig]
      exact hmain.2
  · intro hgt
    have h1 : skipAreas areas off = ([], off - sumSizes areas) :=
      skip_over areas off hgt
    have hc : (BumpAllocator.new areas off).curAreas =
        ([], off - sumSizes areas) := h1
    exact ⟨by rw [hc], by rw [hc]; omega, by
      have ho2 : (BumpAllocator.new areas off).origAreas =
          ([], off - sumSizes areas) := h1
      rw [ho2]
      show sumSizes [] < off - sumSizes areas
      rw [sumSizes_nil]
      omega⟩

/-- Claim C10 witness: the no-underflow conclusions instantiated over one
region of 0x1000 bytes with offset 0 and one allocate call, and the
underflow conclusions instantiated with the excessive offset 0x2000. -/
theorem bump_usage_no_underflow_witness :
    ((0 : Nat) ≤ sumSizes [⟨0x0, 0x1000⟩]) ∧
    (((allocSeq 0x1000 (BumpAllocator.new [⟨0x0, 0x1000⟩] 0)
          [1]).2.origAreas.2 ≤
        sumSizes (allocSeq 0x1000 (BumpAllocator.new [⟨0x0, 0x1000⟩] 0)
          [1]).2.origAreas.1) ∧
     ((allocSeq 0x1000 (BumpAllocator.new [⟨0x0, 0x1000⟩] 0)
          [1]).2.curAreas.2 ≤
        sumSizes (allocSeq 0x1000 (BumpAllocator.new [⟨0x0, 0x1000⟩] 0)
          [1]).2.curAreas.1) ∧
     (sumSizes (allocSeq 0x1000 (BumpAllocator.new [⟨0x0, 0x1000⟩] 0)
          [1]).2.curAreas.1 -
        (allocSeq 0x1000 (BumpAllocator.new [⟨0x0, 0x1000⟩] 0)
          [1]).2.curAreas.2 ≤
      sumSizes (allocSeq 0x1000 (BumpAllocator.new [⟨0x0, 0x1000⟩] 0)
          [1]).2.origAreas.1 -
        (allocSeq 0x1000 (BumpAllocator.new [⟨0x0, 0x1000⟩] 0)
          [1]).2.origAreas.2)) ∧
    (sumSizes [⟨0x0, 0x1000⟩] < 0x2000) ∧
    ((BumpAllocator.new [⟨0x0, 0x1000⟩] 0x2000).curAreas.1 = [] ∧
     0 < (BumpAllocator.new [⟨0x0, 0x1000⟩] 0x2000).curAreas.2 ∧
     sumSizes (BumpAllocator.new [⟨0x0, 0x1000⟩] 0x2000).origAreas.1 <
       (BumpAllocator.new [⟨0x0, 0x1000⟩] 0x2000).origAreas.2) :=
  ⟨by decide,
   (bump_usage_no_underflow 0x1000 [⟨0x0, 0x1000⟩] 0).1 (by decide) [1],
   by decide,
   (bump_usage_no_underflow 0x1000 [⟨0x0, 0x1000⟩] 0x2000).2 (by decide)⟩
